import Mathlib

/-!
Verification of `Perun::FifoQueue<T>` (src/fifo_queue.hpp) against its
natural-language specification.

The queue is embedded shallowly: its sequential state is the triple of the
immutable `max_size` (an `int64_t`), the `std::deque<T> _storage` (head at the
front of the list), and the lifecycle flag `_is_valid`. Each operation is a
pure function from state to a result record carrying the returned status, the
state afterwards, the list of condition-variable notifications performed, and
the value delivered through the output reference argument (if any). Blocking
operations (`push`, `pop`) return `Option`: `none` is the case in which the
operation waits on a condition variable — sequentially, no peer thread can
change the state, so the operation does not complete and the state is not
modified. The C++ comparison `_storage.size() >= max_size` converts the
signed `max_size` to `size_t`, i.e. reduces it modulo 2^64; this conversion is
modelled explicitly.
-/

namespace FifoModel

/-- Status codes of queue operations, from `enum class FifoError` in
fifo_queue.hpp. `Destroyed` is the code's name for the spec's `Closed`. -/
inductive FifoError where
  | OK
  | Destroyed
  | Full
  | Empty
  | NotFound
  | Timeouted
deriving Repr, DecidableEq

/-- Condition-variable notification events. The two channels are
`_c_pop_blocking_on` (consumers wait on it for non-empty) and
`_c_push_blockin_on` (producers wait on it for non-full; the name keeps the
source's spelling). `one` is `notify_one`, `all` is `notify_all`. -/
inductive Signal where
  | one_pop_blocking_on
  | one_push_blockin_on
  | all_pop_blocking_on
  | all_push_blockin_on
deriving Repr, DecidableEq

/-- The sequential state of `Perun::FifoQueue<T>`. -/
structure FifoQueue (T : Type) where
  max_size : Int
  storage : List T
  is_valid : Bool
deriving Repr, DecidableEq

/-- Largest `int64_t` value: the constructor's default `max_size`
(`std::numeric_limits<int64_t>::max()`). -/
def int64_max : Int := 2 ^ 63 - 1

/-- C++ conversion of the signed 64-bit `max_size` to `size_t` (unsigned
64-bit), as performed by the usual arithmetic conversions in the comparison
`_storage.size() >= max_size`. -/
def usize64 (i : Int) : Nat := (i % 2 ^ 64).toNat

/-- The constructor `FifoQueue(int64_t max_size = ...)`: the capacity argument
is stored verbatim, storage starts empty, `_is_valid` starts `true`. The
constructor body performs no validation of `max_size`. -/
def mkFifoQueue (T : Type) (max_size : Int) : FifoQueue T :=
  ⟨max_size, [], true⟩

/-- Result of one completed queue operation: returned status, queue state
afterwards, condition-variable notifications performed, and the value
delivered through the output reference argument (if any). -/
structure Step (T : Type) where
  err : FifoError
  state : FifoQueue T
  signals : List Signal
  out : Option T
deriving Repr, DecidableEq

/-- `try_push`: under the lock, if not valid return `Destroyed`; if
`size() >= max_size` return `Full`; else append at the tail, then (after
releasing the lock) `_c_pop_blocking_on.notify_one()` and return `OK`. -/
def FifoQueue.try_push {T : Type} (q : FifoQueue T) (value : T) : Step T :=
  if q.is_valid then
    if q.storage.length ≥ usize64 q.max_size then ⟨.Full, q, [], none⟩
    else ⟨.OK, ⟨q.max_size, q.storage ++ [value], q.is_valid⟩, [.one_pop_blocking_on], none⟩
  else ⟨.Destroyed, q, [], none⟩

/-- Blocking `push`: if not valid return `Destroyed`; while full, wait on
`_c_push_blockin_on` (sequentially: `none`, the state cannot change); else
append at the tail, notify one consumer, return `OK`. -/
def FifoQueue.push {T : Type} (q : FifoQueue T) (value : T) : Option (Step T) :=
  if q.is_valid then
    if q.storage.length ≥ usize64 q.max_size then none
    else some ⟨.OK, ⟨q.max_size, q.storage ++ [value], q.is_valid⟩, [.one_pop_blocking_on], none⟩
  else some ⟨.Destroyed, q, [], none⟩

/-- `try_pop`: under the lock, if not valid return `Destroyed` (even when
storage is non-empty); if empty return `Empty`; else move the front out,
`pop_front`, notify one producer, return `OK`. -/
def FifoQueue.try_pop {T : Type} (q : FifoQueue T) : Step T :=
  if q.is_valid then
    match q.storage with
    | [] => ⟨.Empty, q, [], none⟩
    | v :: rest => ⟨.OK, ⟨q.max_size, rest, q.is_valid⟩, [.one_push_blockin_on], some v⟩
  else ⟨.Destroyed, q, [], none⟩

/-- Blocking `pop`: while storage is empty, return `Destroyed` if not valid,
otherwise wait (sequentially: `none`). Once storage is non-empty the code
checks `_is_valid` again unconditionally and returns `Destroyed` when the
queue is closed; only on a valid queue does it move the front out, `pop_front`,
notify one producer and return `OK`. -/
def FifoQueue.pop {T : Type} (q : FifoQueue T) : Option (Step T) :=
  match q.storage with
  | [] =>
    if q.is_valid then none
    else some ⟨.Destroyed, q, [], none⟩
  | v :: rest =>
    if q.is_valid then
      some ⟨.OK, ⟨q.max_size, rest, q.is_valid⟩, [.one_push_blockin_on], some v⟩
    else some ⟨.Destroyed, q, [], none⟩

/-- `close`: under the lock set `_is_valid = false`; then `notify_all` on both
condition variables. -/
def FifoQueue.close {T : Type} (q : FifoQueue T) : FifoQueue T × List Signal :=
  (⟨q.max_size, q.storage, false⟩, [.all_pop_blocking_on, .all_push_blockin_on])

/-- `running`: snapshot of `_is_valid` under the lock. -/
def FifoQueue.running {T : Type} (q : FifoQueue T) : Bool :=
  q.is_valid

/-- `size`: snapshot of `_storage.size()` under the lock. -/
def FifoQueue.size {T : Type} (q : FifoQueue T) : Nat :=
  q.storage.length

/-- Head-to-tail scan of `FifoQueue::get`: the first element satisfying `f`,
paired with the storage after erasing that element in place. -/
def scanGet {T : Type} (f : T → Bool) : List T → Option (T × List T)
  | [] => none
  | x :: xs =>
    if f x then some (x, xs)
    else (scanGet f xs).map (fun p => (p.1, x :: p.2))

/-- `get`: under the lock, if not valid return `Destroyed`; scan the storage
from head to tail and on the first match move the element out, erase it, and
return `OK`; if no element matches return `NotFound`. The code performs no
condition-variable notification in any branch. -/
def FifoQueue.get {T : Type} (q : FifoQueue T) (f : T → Bool) : Step T :=
  if q.is_valid then
    match scanGet f q.storage with
    | some p => ⟨.OK, ⟨q.max_size, p.2, q.is_valid⟩, [], some p.1⟩
    | none => ⟨.NotFound, q, [], none⟩
  else ⟨.Destroyed, q, [], none⟩

/-- `erase_if`: under the lock, `std::erase_if(_storage, f)` — remove every
element satisfying `f`, keeping survivors in order. The code never reads
`_is_valid`, returns no status, and performs no notification. -/
def FifoQueue.erase_if {T : Type} (q : FifoQueue T) (f : T → Bool) :
    FifoQueue T × List Signal :=
  (⟨q.max_size, q.storage.filter (fun x => !f x), q.is_valid⟩, [])

/-- One invocation of a public queue operation, for quantifying over
arbitrary sequences of calls. -/
inductive OpKind (T : Type) where
  | tryPushOp (v : T)
  | pushOp (v : T)
  | tryPopOp
  | popOp
  | getOp (f : T → Bool)
  | eraseIfOp (f : T → Bool)
  | closeOp
  | sizeOp
  | runningOp

/-- The queue state after one operation completes. A `push`/`pop` that blocks
has not completed and has not modified the state. -/
def applyOp {T : Type} : OpKind T → FifoQueue T → FifoQueue T
  | .tryPushOp v, q => (q.try_push v).state
  | .pushOp v, q =>
    match q.push v with
    | some r => r.state
    | none => q
  | .tryPopOp, q => q.try_pop.state
  | .popOp, q =>
    match q.pop with
    | some r => r.state
    | none => q
  | .getOp f, q => (q.get f).state
  | .eraseIfOp f, q => (q.erase_if f).1
  | .closeOp, q => q.close.1
  | .sizeOp, q => q
  | .runningOp, q => q

/-- The queue state after a sequence of operations. -/
def applyOps {T : Type} (ops : List (OpKind T)) (q : FifoQueue T) : FifoQueue T :=
  ops.foldl (fun s op => applyOp op s) q

/-- Push the values of `vs` in order with the blocking `push`, collecting the
returned statuses; `none` if some push blocks (sequentially: forever). -/
def pushSeq {T : Type} : FifoQueue T → List T → Option (FifoQueue T × List FifoError)
  | q, [] => some (q, [])
  | q, v :: vs =>
    (q.push v).bind (fun r =>
      (pushSeq r.state vs).map (fun p => (p.1, r.err :: p.2)))

/-- Pop `n` times with the blocking `pop`, collecting the delivered values in
order; `none` if some pop blocks or delivers no value. -/
def popSeq {T : Type} : FifoQueue T → Nat → Option (FifoQueue T × List T)
  | q, 0 => some (q, [])
  | q, n + 1 =>
    q.pop.bind (fun r =>
      match r.out with
      | some v => (popSeq r.state n).map (fun p => (p.1, v :: p.2))
      | none => none)

/-- Construct a queue of capacity `cap`, push all of `vs`, then pop
`vs.length` times, returning the delivered values. -/
def pushThenPopAll (T : Type) (cap : Int) (vs : List T) : Option (List T) :=
  (pushSeq (mkFifoQueue T cap) vs).bind
    (fun p => (popSeq p.1 vs.length).map (fun r => r.2))




/-- The storage-length invariant: `0 <= len(storage) <= capacity`, with the
capacity as the unsigned bound the code compares against. -/
def Inv {T : Type} (q : FifoQueue T) : Prop :=
  q.storage.length ≤ usize64 q.max_size

theorem scanGet_eq_none {T : Type} (f : T → Bool) (l : List T)
    (h : ∀ x ∈ l, f x = false) : scanGet f l = none := by
  induction l with
  | nil => rfl
  | cons x xs ih =>
    have hx := h x (List.mem_cons_self x xs)
    simp [scanGet, hx, ih (fun y hy => h y (List.mem_cons_of_mem x hy))]

theorem scanGet_first {T : Type} (f : T → Bool) (l₁ : List T) (v : T) (l₂ : List T)
    (h1 : ∀ x ∈ l₁, f x = false) (hv : f v = true) :
    scanGet f (l₁ ++ v :: l₂) = some (v, l₁ ++ l₂) := by
  induction l₁ with
  | nil => simp [scanGet, hv]
  | cons x xs ih =>
    have hx := h1 x (List.mem_cons_self x xs)
    simp [scanGet, hx, ih (fun y hy => h1 y (List.mem_cons_of_mem x hy))]

theorem scanGet_length {T : Type} (f : T → Bool) :
    ∀ (l : List T) (v : T) (rest : List T),
      scanGet f l = some (v, rest) → rest.length + 1 = l.length := by
  intro l
  induction l with
  | nil => intro v rest h; simp [scanGet] at h
  | cons x xs ih =>
    intro v rest h
    by_cases hx : f x
    · simp [scanGet, hx] at h
      rw [← h.2]
      simp
    · simp only [scanGet, hx, Bool.false_eq_true, if_false] at h
      cases hs : scanGet f xs with
      | none => rw [hs] at h; simp at h
      | some p =>
        rw [hs] at h
        simp at h
        have hlen := ih p.1 p.2 (by rw [hs])
        rw [← h.2]
        simp
        omega


theorem applyOp_max_size {T : Type} (op : OpKind T) (q : FifoQueue T) :
    (applyOp op q).max_size = q.max_size := by
  obtain ⟨m, l, b⟩ := q
  cases op with
  | tryPushOp v =>
    cases b
    · simp [applyOp, FifoQueue.try_push]
    · by_cases hf : l.length ≥ usize64 m
      · simp [applyOp, FifoQueue.try_push, hf]
      · simp [applyOp, FifoQueue.try_push, hf]
  | pushOp v =>
    cases b
    · simp [applyOp, FifoQueue.push]
    · by_cases hf : l.length ≥ usize64 m
      · simp [applyOp, FifoQueue.push, hf]
      · simp [applyOp, FifoQueue.push, hf]
  | tryPopOp => cases b <;> cases l <;> simp [applyOp, FifoQueue.try_pop]
  | popOp => cases b <;> cases l <;> simp [applyOp, FifoQueue.pop]
  | getOp f =>
    cases b
    · simp [applyOp, FifoQueue.get]
    · cases hs : scanGet f l <;> simp [applyOp, FifoQueue.get, hs]
  | eraseIfOp f => simp [applyOp, FifoQueue.erase_if]
  | closeOp => simp [applyOp, FifoQueue.close]
  | sizeOp => rfl
  | runningOp => rfl

theorem applyOp_inv {T : Type} (op : OpKind T) (q : FifoQueue T) (h : Inv q) :
    Inv (applyOp op q) := by
  have hm := applyOp_max_size op q
  unfold Inv at h ⊢
  rw [hm]
  obtain ⟨m, l, b⟩ := q
  simp only at h ⊢
  cases op with
  | tryPushOp v =>
    cases b
    · simp [applyOp, FifoQueue.try_push]; exact h
    · by_cases hf : l.length ≥ usize64 m
      · simp [applyOp, FifoQueue.try_push, hf]; exact h
      · simp [applyOp, FifoQueue.try_push, hf]; omega
  | pushOp v =>
    cases b
    · simp [applyOp, FifoQueue.push]; exact h
    · by_cases hf : l.length ≥ usize64 m
      · simp [applyOp, FifoQueue.push, hf]; exact h
      · simp [applyOp, FifoQueue.push, hf]; omega
  | tryPopOp =>
    cases b <;> cases l <;> (simp_all [applyOp, FifoQueue.try_pop]; try omega)
  | popOp =>
    cases b <;> cases l <;> (simp_all [applyOp, FifoQueue.pop]; try omega)
  | getOp f =>
    cases b
    · simp [applyOp, FifoQueue.get]; exact h
    · cases hs : scanGet f l with
      | none => simp [applyOp, FifoQueue.get, hs]; exact h
      | some p =>
        simp [applyOp, FifoQueue.get, hs]
        have := scanGet_length f l p.1 p.2 (by rw [hs])
        omega
  | eraseIfOp f =>
    simp [applyOp, FifoQueue.erase_if]
    exact le_trans (List.length_filter_le _ l) h
  | closeOp => simpa [applyOp, FifoQueue.close] using h
  | sizeOp => exact h
  | runningOp => exact h

theorem applyOp_valid {T : Type} (op : OpKind T) (q : FifoQueue T)
    (h : (applyOp op q).is_valid = true) : q.is_valid = true := by
  obtain ⟨m, l, b⟩ := q
  cases b
  case true => rfl
  case false =>
  exfalso
  cases op with
  | tryPushOp v => simp [applyOp, FifoQueue.try_push] at h
  | pushOp v => simp [applyOp, FifoQueue.push] at h
  | tryPopOp => simp [applyOp, FifoQueue.try_pop] at h
  | popOp => cases l <;> simp [applyOp, FifoQueue.pop] at h
  | getOp f => simp [applyOp, FifoQueue.get] at h
  | eraseIfOp f => simp [applyOp, FifoQueue.erase_if] at h
  | closeOp => simp [applyOp, FifoQueue.close] at h
  | sizeOp => simp [applyOp] at h
  | runningOp => simp [applyOp] at h

theorem applyOps_max_size {T : Type} (ops : List (OpKind T)) (q : FifoQueue T) :
    (applyOps ops q).max_size = q.max_size := by
  induction ops generalizing q with
  | nil => rfl
  | cons op ops ih =>
    exact (ih (applyOp op q)).trans (applyOp_max_size op q)

theorem applyOps_inv {T : Type} (ops : List (OpKind T)) (q : FifoQueue T) (h : Inv q) :
    Inv (applyOps ops q) := by
  induction ops generalizing q with
  | nil => exact h
  | cons op ops ih => exact ih _ (applyOp_inv op q h)

theorem applyOps_valid {T : Type} (ops : List (OpKind T)) (q : FifoQueue T)
    (h : (applyOps ops q).is_valid = true) : q.is_valid = true := by
  induction ops generalizing q with
  | nil => exact h
  | cons op ops ih => exact applyOp_valid op q (ih _ h)

theorem usize64_of_le_int64_max {m : Int} (h0 : 0 ≤ m) (h : m ≤ int64_max) :
    usize64 m = m.toNat := by
  have h63 : (2:Int) ^ 63 = 9223372036854775808 := by norm_num
  have h64 : (2:Int) ^ 64 = 18446744073709551616 := by norm_num
  unfold usize64 int64_max at *
  rw [Int.emod_eq_of_lt h0 (by omega)]

/-- Claim C1 (counterexample): starting from a fresh queue of capacity 2, push
1 and then close; the resulting queue is closed with non-empty storage `[1]`,
yet `pop` returns `Destroyed` — not `OK` — and removes nothing. -/
theorem pop_closed_nonempty_refutes_drain :
    (((mkFifoQueue Nat 2).try_push 1).state.close).1 = ⟨2, [1], false⟩ ∧
    (⟨2, [1], false⟩ : FifoQueue Nat).pop =
      some ⟨.Destroyed, ⟨2, [1], false⟩, [], none⟩ ∧
    FifoError.Destroyed ≠ FifoError.OK := by
  decide

/-- Claim C1 (amended): `pop` on a closed queue returns `Destroyed`
immediately — whether storage is empty or not — leaving the state unchanged,
notifying no one and delivering no value; the re-check of `_is_valid` after
the wait loop makes close-and-drain through `pop` impossible. -/
theorem pop_closed_returns_destroyed {T : Type} (q : FifoQueue T)
    (h : q.is_valid = false) :
    q.pop = some ⟨.Destroyed, q, [], none⟩ := by
  cases hs : q.storage <;> simp [FifoQueue.pop, hs, h]

/-- Witness for `pop_closed_returns_destroyed` at a closed non-empty queue. -/
theorem pop_closed_returns_destroyed_witness :
    (⟨3, [4, 5], false⟩ : FifoQueue Nat).pop =
      some ⟨.Destroyed, ⟨3, [4, 5], false⟩, [], none⟩ :=
  pop_closed_returns_destroyed ⟨3, [4, 5], false⟩ rfl

/-- Claim C5: on an open queue, `get` removes and returns with `OK` the first
element (scanning head to tail) satisfying the predicate, preserving the
relative order of the remaining elements, and returns `NotFound` when no
element matches. -/
theorem get_first_match_semantics {T : Type} (q : FifoQueue T) (f : T → Bool)
    (hv : q.is_valid = true) :
    (∀ (l₁ : List T) (v : T) (l₂ : List T),
        q.storage = l₁ ++ v :: l₂ → (∀ x ∈ l₁, f x = false) → f v = true →
        q.get f = ⟨.OK, ⟨q.max_size, l₁ ++ l₂, true⟩, [], some v⟩) ∧
    ((∀ x ∈ q.storage, f x = false) → q.get f = ⟨.NotFound, q, [], none⟩) := by
  constructor
  · intro l₁ v l₂ hs h1 hf
    simp [FifoQueue.get, hv, hs, scanGet_first f l₁ v l₂ h1 hf]
  · intro h
    simp [FifoQueue.get, hv, scanGet_eq_none f q.storage h]

/-- Witness for `get_first_match_semantics`: after pushing 1,2,3,4,5,
`get (x == 3)` returns `OK` with value 3, the remaining order is [1,2,4,5],
and `size` becomes 4; a never-true predicate yields `NotFound`. -/
theorem get_first_match_semantics_witness :
    FifoQueue.get (⟨9, [1, 2, 3, 4, 5], true⟩ : FifoQueue Nat) (fun x => x == 3) =
      ⟨.OK, ⟨9, [1, 2, 4, 5], true⟩, [], some 3⟩ ∧
    FifoQueue.size (⟨9, [1, 2, 4, 5], true⟩ : FifoQueue Nat) = 4 ∧
    FifoQueue.get (⟨9, [1, 2, 3, 4, 5], true⟩ : FifoQueue Nat) (fun _ => false) =
      ⟨.NotFound, ⟨9, [1, 2, 3, 4, 5], true⟩, [], none⟩ := by
  refine ⟨?_, rfl, ?_⟩
  · exact (get_first_match_semantics ⟨9, [1, 2, 3, 4, 5], true⟩ (fun x => x == 3) rfl).1
      [1, 2] 3 [4, 5] rfl (by decide) (by decide)
  · exact (get_first_match_semantics ⟨9, [1, 2, 3, 4, 5], true⟩ (fun _ => false) rfl).2
      (by intro x hx; rfl)

/-- Claim C6: `try_pop` returns `Destroyed` on a closed queue regardless of
the storage contents, `Empty` on an open empty queue, and on an open
non-empty queue removes the head, returns it with `OK`, and notifies one
producer. -/
theorem try_pop_semantics {T : Type} (q : FifoQueue T) :
    (q.is_valid = false → q.try_pop = ⟨.Destroyed, q, [], none⟩) ∧
    (q.is_valid = true → q.storage = [] → q.try_pop = ⟨.Empty, q, [], none⟩) ∧
    (∀ (v : T) (rest : List T), q.is_valid = true → q.storage = v :: rest →
        q.try_pop = ⟨.OK, ⟨q.max_size, rest, true⟩, [.one_push_blockin_on], some v⟩) := by
  refine ⟨?_, ?_, ?_⟩
  · intro h; simp [FifoQueue.try_pop, h]
  · intro h hs; simp [FifoQueue.try_pop, h, hs]
  · intro v rest h hs; simp [FifoQueue.try_pop, h, hs]

/-- Witness for `try_pop_semantics`: a closed non-empty queue yields
`Destroyed`, an open empty queue yields `Empty`, an open queue holding [7, 8]
yields `OK` with 7 and storage [8]. -/
theorem try_pop_semantics_witness :
    (⟨2, [7], false⟩ : FifoQueue Nat).try_pop = ⟨.Destroyed, ⟨2, [7], false⟩, [], none⟩ ∧
    (⟨2, [], true⟩ : FifoQueue Nat).try_pop = ⟨.Empty, ⟨2, [], true⟩, [], none⟩ ∧
    (⟨2, [7, 8], true⟩ : FifoQueue Nat).try_pop =
      ⟨.OK, ⟨2, [8], true⟩, [.one_push_blockin_on], some 7⟩ :=
  ⟨(try_pop_semantics _).1 rfl, (try_pop_semantics _).2.1 rfl rfl,
    (try_pop_semantics _).2.2 7 [8] rfl rfl⟩

/-- Claim C8: a failed non-blocking operation leaves the queue unchanged:
`try_push` on an open queue at capacity returns `Full` with the state intact
and no notification, and `try_pop` on an open empty queue likewise returns
`Empty`. -/
theorem failed_try_ops_leave_storage_unchanged {T : Type} (q : FifoQueue T) (v : T) :
    (q.is_valid = true → (q.storage.length : Int) = q.max_size →
        q.max_size ≤ int64_max → q.try_push v = ⟨.Full, q, [], none⟩) ∧
    (q.is_valid = true → q.storage = [] → q.try_pop = ⟨.Empty, q, [], none⟩) := by
  constructor
  · intro hv hlen hmax
    have hge : q.storage.length ≥ usize64 q.max_size := by
      rw [usize64_of_le_int64_max (by omega) hmax]
      omega
    simp [FifoQueue.try_push, hv, hge]
  · intro hv hs
    simp [FifoQueue.try_pop, hv, hs]

/-- Witness for `failed_try_ops_leave_storage_unchanged` on a full open queue
of capacity 2 holding [1, 2] and on an open empty queue. -/
theorem failed_try_ops_leave_storage_unchanged_witness :
    (⟨2, [1, 2], true⟩ : FifoQueue Nat).try_push 9 =
      ⟨.Full, ⟨2, [1, 2], true⟩, [], none⟩ ∧
    (⟨2, [], true⟩ : FifoQueue Nat).try_pop = ⟨.Empty, ⟨2, [], true⟩, [], none⟩ :=
  ⟨(failed_try_ops_leave_storage_unchanged ⟨2, [1, 2], true⟩ 9).1 rfl (by decide) (by decide),
    (failed_try_ops_leave_storage_unchanged ⟨2, [], true⟩ 9).2 rfl rfl⟩

/-- Claim C10: `erase_if` never reads the lifecycle flag, so on an already
closed queue it still removes every element satisfying the predicate, keeping
the survivors in order; the queue stays closed, no status is reported and no
notification is made. -/
theorem erase_if_on_closed_queue {T : Type} (q : FifoQueue T) (f : T → Bool)
    (h : q.is_valid = false) :
    q.erase_if f = (⟨q.max_size, q.storage.filter (fun x => !f x), false⟩, []) := by
  simp [FifoQueue.erase_if, h]

/-- Witness for `erase_if_on_closed_queue`: a closed queue holding [1, 2, 3]
with predicate (x == 2) keeps [1, 3] and stays closed. -/
theorem erase_if_on_closed_queue_witness :
    (⟨5, [1, 2, 3], false⟩ : FifoQueue Nat).erase_if (fun x => x == 2) =
      (⟨5, [1, 3], false⟩, []) := by
  rw [erase_if_on_closed_queue ⟨5, [1, 2, 3], false⟩ (fun x => x == 2) rfl]
  rfl


/-- Claim C2 (counterexample): constructing a queue with capacity 0 is not
rejected — the constructor accepts it and the resulting queue has
`max_size = 0`, violating `capacity >= 1`, while being open and usable. -/
theorem construct_zero_capacity_accepted :
    (mkFifoQueue Nat 0).max_size = 0 ∧
    ¬ (1 ≤ (mkFifoQueue Nat 0).max_size) ∧
    (mkFifoQueue Nat 0).is_valid = true := by
  decide

/-- Claim C2 (amended): the constructor performs no validation — any
`int64_t` capacity, zero and negative included, is accepted and stored
verbatim, with empty storage and the queue open. A capacity-0 queue refuses
every `try_push` with `Full`; a negative capacity is converted to an unsigned
64-bit bound by the size comparison, so `try_push` succeeds. -/
theorem construct_no_validation :
    (∀ m : Int, (mkFifoQueue Nat m).max_size = m ∧
      (mkFifoQueue Nat m).storage = [] ∧ (mkFifoQueue Nat m).is_valid = true) ∧
    (∀ v : Nat, ((mkFifoQueue Nat 0).try_push v).err = .Full) ∧
    (∀ v : Nat, ((mkFifoQueue Nat (-1)).try_push v).err = .OK) := by
  refine ⟨fun m => ⟨rfl, rfl, rfl⟩, fun v => ?_, fun v => ?_⟩
  · simp [mkFifoQueue, FifoQueue.try_push, usize64]
  · simp [mkFifoQueue, FifoQueue.try_push, usize64]

/-- Claim C3 (counterexample): a successful `get` removal and an `erase_if`
removal notify nobody — the signal list is empty — contradicting the claimed
signaling discipline for `get` and `erase_if`. -/
theorem get_removal_signals_nothing :
    FifoQueue.get (⟨5, [1], true⟩ : FifoQueue Nat) (fun _ => true) =
      ⟨.OK, ⟨5, [], true⟩, [], some 1⟩ ∧
    (⟨5, [1, 2], true⟩ : FifoQueue Nat).erase_if (fun x => x == 1) =
      (⟨5, [2], true⟩, []) := by
  decide

/-- Claim C3 (amended): every successful `push`/`try_push` notifies exactly
one consumer waiter, every successful `pop`/`try_pop` notifies exactly one
producer waiter, and `close` notifies all waiters on both channels; but `get`
and `erase_if` perform no notification at all, not even after removing
elements. -/
theorem signaling_discipline_amended {T : Type} :
    (∀ (q : FifoQueue T) (v : T), (q.try_push v).err = .OK →
        (q.try_push v).signals = [.one_pop_blocking_on]) ∧
    (∀ (q : FifoQueue T) (v : T) (r : Step T), q.push v = some r → r.err = .OK →
        r.signals = [.one_pop_blocking_on]) ∧
    (∀ q : FifoQueue T, q.try_pop.err = .OK →
        q.try_pop.signals = [.one_push_blockin_on]) ∧
    (∀ (q : FifoQueue T) (r : Step T), q.pop = some r → r.err = .OK →
        r.signals = [.one_push_blockin_on]) ∧
    (∀ q : FifoQueue T, q.close.2 = [.all_pop_blocking_on, .all_push_blockin_on]) ∧
    (∀ (q : FifoQueue T) (f : T → Bool), (q.get f).signals = []) ∧
    (∀ (q : FifoQueue T) (f : T → Bool), (q.erase_if f).2 = []) := by
  refine ⟨?_, ?_, ?_, ?_, fun q => rfl, ?_, fun q f => rfl⟩
  · intro q v h
    obtain ⟨m, l, b⟩ := q
    cases b
    · simp [FifoQueue.try_push] at h
    · by_cases hf : l.length ≥ usize64 m
      · simp [FifoQueue.try_push, hf] at h
      · simp [FifoQueue.try_push, hf]
  · intro q v r hr h
    obtain ⟨m, l, b⟩ := q
    cases b
    · simp [FifoQueue.push] at hr
      rw [← hr] at h
      simp at h
    · by_cases hf : l.length ≥ usize64 m
      · simp [FifoQueue.push, hf] at hr
      · simp [FifoQueue.push, hf] at hr
        rw [← hr]
  · intro q h
    obtain ⟨m, l, b⟩ := q
    cases b <;> cases l <;> simp_all [FifoQueue.try_pop]
  · intro q r hr h
    obtain ⟨m, l, b⟩ := q
    cases b <;> cases l <;> simp_all [FifoQueue.pop] <;> simp [← hr] at h ⊢
  · intro q f
    obtain ⟨m, l, b⟩ := q
    cases b
    · rfl
    · cases hs : scanGet f l <;> simp [FifoQueue.get, hs]

/-- Witness for `signaling_discipline_amended`: concrete instances of each
conjunct with a hypothesis, on small open queues of naturals. -/
theorem signaling_discipline_amended_witness :
    ((⟨5, [], true⟩ : FifoQueue Nat).try_push 1).signals = [.one_pop_blocking_on] ∧
    ((⟨5, [], true⟩ : FifoQueue Nat).try_pop.err = .OK →
      (⟨5, [], true⟩ : FifoQueue Nat).try_pop.signals = [.one_push_blockin_on]) ∧
    (∀ r : Step Nat, (⟨5, [2], true⟩ : FifoQueue Nat).pop = some r →
      r.signals = [.one_push_blockin_on]) := by
  refine ⟨?_, ?_, ?_⟩
  · exact (signaling_discipline_amended (T := Nat)).1 ⟨5, [], true⟩ 1 (by decide)
  · exact fun h => (signaling_discipline_amended (T := Nat)).2.2.1 ⟨5, [], true⟩ h
  · intro r hr
    exact (signaling_discipline_amended (T := Nat)).2.2.2.1 ⟨5, [2], true⟩ r hr
      (by rw [show r = ⟨.OK, ⟨5, [], true⟩, [.one_push_blockin_on], some 2⟩ from
        by rw [show (⟨5, [2], true⟩ : FifoQueue Nat).pop =
          some ⟨.OK, ⟨5, [], true⟩, [.one_push_blockin_on], some 2⟩ from rfl] at hr
              ; exact (Option.some_injective _ hr).symm])


/-- Claim C4: starting from a queue constructed with capacity `cap >= 1`
(within `int64_t` range), every sequence of operations keeps the storage
length between 0 and `cap` inclusive, and the capacity itself immutable; so
`size()` at any externally observable point satisfies `0 <= size() <= cap`. -/
theorem invariant_size_le_capacity {T : Type} (cap : Int)
    (h1 : 1 ≤ cap) (h2 : cap ≤ int64_max) :
    ∀ ops : List (OpKind T),
      (applyOps ops (mkFifoQueue T cap)).max_size = cap ∧
      0 ≤ FifoQueue.size (applyOps ops (mkFifoQueue T cap)) ∧
      (FifoQueue.size (applyOps ops (mkFifoQueue T cap)) : Int) ≤ cap := by
  intro ops
  have hmax : (applyOps ops (mkFifoQueue T cap)).max_size = cap :=
    applyOps_max_size ops (mkFifoQueue T cap)
  have hinv : Inv (applyOps ops (mkFifoQueue T cap)) :=
    applyOps_inv ops (mkFifoQueue T cap) (by simp [Inv, mkFifoQueue])
  refine ⟨hmax, Nat.zero_le _, ?_⟩
  unfold Inv at hinv
  rw [hmax, usize64_of_le_int64_max (by omega) h2] at hinv
  unfold FifoQueue.size
  omega

/-- Witness for `invariant_size_le_capacity`: capacity 3 with four pushes
(the fourth refused as `Full`) and one pop. -/
theorem invariant_size_le_capacity_witness :
    (applyOps [OpKind.tryPushOp 1, OpKind.tryPushOp 2, OpKind.tryPushOp 3,
        OpKind.tryPushOp 4, OpKind.popOp] (mkFifoQueue Nat 3)).max_size = 3 ∧
    0 ≤ FifoQueue.size (applyOps [OpKind.tryPushOp 1, OpKind.tryPushOp 2,
        OpKind.tryPushOp 3, OpKind.tryPushOp 4, OpKind.popOp] (mkFifoQueue Nat 3)) ∧
    (FifoQueue.size (applyOps [OpKind.tryPushOp 1, OpKind.tryPushOp 2,
        OpKind.tryPushOp 3, OpKind.tryPushOp 4, OpKind.popOp]
        (mkFifoQueue Nat 3)) : Int) ≤ 3 :=
  invariant_size_le_capacity 3 (by decide) (by decide)
    [OpKind.tryPushOp 1, OpKind.tryPushOp 2, OpKind.tryPushOp 3,
      OpKind.tryPushOp 4, OpKind.popOp]

/-- Claim C7: the closed state is terminal — right after `close` the queue is
not running, no sequence of further operations ever makes `running` true
again, and a second `close` leaves the state unchanged while still
broadcasting on both channels. -/
theorem closed_is_terminal {T : Type} :
    (∀ q : FifoQueue T, q.close.1.running = false) ∧
    (∀ (q : FifoQueue T) (ops : List (OpKind T)),
        (applyOps ops q.close.1).running = false) ∧
    (∀ q : FifoQueue T, q.close.1.close = q.close) := by
  refine ⟨fun q => rfl, fun q ops => ?_, fun q => rfl⟩
  unfold FifoQueue.running
  by_cases h : (applyOps ops q.close.1).is_valid = true
  · have := applyOps_valid ops q.close.1 h
    simp [FifoQueue.close] at this
  · simpa using h

theorem pushSeq_ok {T : Type} (m : Int) :
    ∀ (vs l : List T), l.length + vs.length ≤ usize64 m →
      pushSeq (⟨m, l, true⟩ : FifoQueue T) vs =
        some (⟨m, l ++ vs, true⟩, List.replicate vs.length .OK) := by
  intro vs
  induction vs with
  | nil => intro l h; simp [pushSeq]
  | cons v vs ih =>
    intro l h
    simp only [List.length_cons] at h
    have hnot : ¬ (l.length ≥ usize64 m) := by omega
    have hpush : FifoQueue.push (⟨m, l, true⟩ : FifoQueue T) v =
        some ⟨.OK, ⟨m, l ++ [v], true⟩, [.one_pop_blocking_on], none⟩ := by
      simp [FifoQueue.push, hnot]
    rw [pushSeq, hpush]
    simp only [Option.some_bind]
    rw [ih (l ++ [v]) (by simp; omega)]
    simp [List.replicate_succ]

theorem popSeq_drain {T : Type} (m : Int) :
    ∀ l : List T, popSeq (⟨m, l, true⟩ : FifoQueue T) l.length =
      some (⟨m, [], true⟩, l) := by
  intro l
  induction l with
  | nil => simp [popSeq]
  | cons v rest ih =>
    have hpop : FifoQueue.pop (⟨m, v :: rest, true⟩ : FifoQueue T) =
        some ⟨.OK, ⟨m, rest, true⟩, [.one_push_blockin_on], some v⟩ := rfl
    simp [popSeq, hpop, ih]

/-- Claim C9: pushing a sequence of values into a freshly constructed open
queue (all pushes succeeding, which the capacity bound guarantees) and then
popping as many times delivers exactly those values in the order of their
appends; in particular a push of `v` followed by a pop yields the same `v`. -/
theorem push_pop_fifo_roundtrip {T : Type} (cap : Int) (vs : List T)
    (h : vs.length ≤ usize64 cap) :
    pushThenPopAll T cap vs = some vs := by
  unfold pushThenPopAll
  rw [show mkFifoQueue T cap = (⟨cap, [], true⟩ : FifoQueue T) from rfl]
  rw [pushSeq_ok cap vs [] (by simpa using h)]
  simp only [Option.some_bind, List.nil_append]
  rw [popSeq_drain cap vs]
  rfl

/-- Witness for `push_pop_fifo_roundtrip`: pushing [1, 2, 3] into a fresh
queue of capacity 5 and popping three times yields [1, 2, 3]; pushing the
single value 13 and popping yields 13. -/
theorem push_pop_fifo_roundtrip_witness :
    pushThenPopAll Nat 5 [1, 2, 3] = some [1, 2, 3] ∧
    pushThenPopAll Nat 5 [13] = some [13] :=
  ⟨push_pop_fifo_roundtrip 5 [1, 2, 3] (by decide),
    push_pop_fifo_roundtrip 5 [13] (by decide)⟩

end FifoModel




